import Mathlib

/-!
Verification of `convert.py`, a container-image converter.

The converter unpacks an image, walks each unpacked layer to build a
metadata tree (pooling every regular file's content in a content-addressed
blob pool), repacks each layer as a single metadata document, rewrites the
image config's `rootfs.diff_ids` list and the repository tags, and names
the new config by the hash of its serialized bytes.

The development below is a shallow embedding of that program: filesystem
subtrees are inductive trees, Python dicts are association lists with
first-match lookup and in-place-update insertion, the external `sha256sum`
and `tar` commands are abstract function parameters, and the state machine
`Image.convert` is an explicit function from an environment (the extracted
source image) to a result record.
-/

set_option maxHeartbeats 1000000

/-- First-match lookup in an association list; models Python `d[k]` read
(`none` models a raised `KeyError`). -/
def alLookup {α : Type} : List (String × α) → String → Option α
  | [], _ => none
  | (k, v) :: rest, key => if k = key then some v else alLookup rest key

/-- Python `d[k] = v` on a dict: replace the value in place if the key is
present (position preserved), otherwise append a new binding at the end. -/
def alInsert {α : Type} : List (String × α) → String → α → List (String × α)
  | [], key, v => [(key, v)]
  | (k, w) :: rest, key, v =>
      if k = key then (key, v) :: rest else (k, w) :: alInsert rest key v

/-- Python `del d[k]` on a dict: remove the binding for the key. -/
def alErase {α : Type} (d : List (String × α)) (key : String) : List (String × α) :=
  d.filter (fun p => p.1 ≠ key)

theorem alLookup_insert_self {α : Type} (d : List (String × α)) (k : String) (v : α) :
    alLookup (alInsert d k v) k = some v := by
  induction d with
  | nil => simp [alInsert, alLookup]
  | cons p rest ih =>
      obtain ⟨a, b⟩ := p
      by_cases ha : a = k
      · simp [alInsert, alLookup, ha]
      · simp [alInsert, alLookup, ha, ih]

theorem alLookup_insert_ne {α : Type} (d : List (String × α)) (k k' : String) (v : α)
    (h : k' ≠ k) : alLookup (alInsert d k v) k' = alLookup d k' := by
  have hk : k ≠ k' := Ne.symm h
  induction d with
  | nil => simp [alInsert, alLookup, hk]
  | cons p rest ih =>
      obtain ⟨a, b⟩ := p
      by_cases ha : a = k
      · subst ha
        simp [alInsert, alLookup, hk]
      · simp [alInsert, alLookup, ha, ih]

theorem alLookup_erase_self {α : Type} (d : List (String × α)) (k : String) :
    alLookup (alErase d k) k = none := by
  induction d with
  | nil => rfl
  | cons p rest ih =>
      obtain ⟨a, b⟩ := p
      by_cases ha : a = k
      · simpa [alErase, List.filter_cons, ha, alLookup, ne_eq, decide_not] using ih
      · simp only [alErase, List.filter_cons, ne_eq, decide_not] at ih ⊢
        simp [ha, alLookup, ih]

theorem alLookup_erase_ne {α : Type} (d : List (String × α)) (k k' : String)
    (h : k' ≠ k) : alLookup (alErase d k) k' = alLookup d k' := by
  induction d with
  | nil => rfl
  | cons p rest ih =>
      obtain ⟨a, b⟩ := p
      by_cases ha : a = k
      · subst ha
        simpa [alErase, List.filter_cons, alLookup, Ne.symm h, ne_eq, decide_not] using ih
      · simp only [alErase, List.filter_cons, ne_eq, decide_not] at ih ⊢
        simp [ha, alLookup, ih]

theorem alInsert_alInsert {α : Type} (d : List (String × α)) (k : String) (v w : α) :
    alInsert (alInsert d k v) k w = alInsert d k w := by
  induction d with
  | nil => simp [alInsert]
  | cons p rest ih =>
      by_cases h : p.1 = k
      · simp [alInsert, h]
      · simp [alInsert, h, ih]

/-- A filesystem subtree as seen by the layer walk: regular files carry
their raw content bytes, symbolic links carry the raw `readlink` target,
directories carry a name-keyed child list.  `mode` is the `os.lstat`
`st_mode` value of the entry. -/
inductive FSNode : Type where
  | file (mode : Nat) (content : String)
  | symlink (mode : Nat) (target : String)
  | dir (mode : Nat) (children : List (String × FSNode))

/-- One node of the metadata tree built by `UnpackedLayer.convert`:
the Python dicts `{mode, dirents}`, `{mode, size, hash}` and
`{mode, size, link}`. -/
inductive Dirent : Type where
  | fileE (mode : Nat) (size : Nat) (hash : String)
  | linkE (mode : Nat) (size : Nat) (target : String)
  | dirE (mode : Nat) (dirents : List (String × Dirent))

/-- The content pool directory: blobs keyed by their content hash. -/
abbrev Pool := List (String × String)

/-- The pool insertion performed by `UnpackedLayer.convert` for one regular
file: compute the hash, and copy the content in only when no blob with that
name exists yet (`if not os.path.exists(target): shutil.copyfile(...)`). -/
def poolPut (sha : String → String) (pool : Pool) (content : String) : Pool :=
  if (alLookup pool (sha content)).isSome then pool else (sha content, content) :: pool

/-- The `for f in files` loop body of the walk: non-directory entries become
leaf dirents; regular files are pooled, symlinks record their target and are
not pooled.  Directory entries are handled by `convertDirs`. -/
def convertFiles (sha : String → String) :
    List (String × FSNode) → Pool → List (String × Dirent) × Pool
  | [], pool => ([], pool)
  | (n, .file m c) :: rest, pool =>
      let rp := convertFiles sha rest (poolPut sha pool c)
      ((n, .fileE m c.length (sha c)) :: rp.1, rp.2)
  | (n, .symlink m t) :: rest, pool =>
      let rp := convertFiles sha rest pool
      ((n, .linkE m t.length t) :: rp.1, rp.2)
  | (_, .dir _ _) :: rest, pool => convertFiles sha rest pool

mutual

/-- The `os.walk` traversal of `UnpackedLayer.convert`, producing the
metadata tree and the updated pool.  At each directory the walk lists the
subdirectory entries first and the non-directory entries second (that is the
insertion order of the Python `dirents` dict), pools the current directory's
files, then descends into the subdirectories. -/
def convertWalk (sha : String → String) : FSNode → Pool → Dirent × Pool
  | .file m c, pool => (.fileE m c.length (sha c), poolPut sha pool c)
  | .symlink m t, pool => (.linkE m t.length t, pool)
  | .dir m children, pool =>
      let fp := convertFiles sha children pool
      let dp := convertDirs sha children fp.2
      (.dirE m (dp.1 ++ fp.1), dp.2)

/-- Recursion of the walk into the subdirectory entries of one directory. -/
def convertDirs (sha : String → String) :
    List (String × FSNode) → Pool → List (String × Dirent) × Pool
  | [], pool => ([], pool)
  | (n, .dir m cs) :: rest, pool =>
      let dp := convertWalk sha (.dir m cs) pool
      let rp := convertDirs sha rest dp.2
      ((n, dp.1) :: rp.1, rp.2)
  | (_, .file _ _) :: rest, pool => convertDirs sha rest pool
  | (_, .symlink _ _) :: rest, pool => convertDirs sha rest pool

end

/-- Pure description of the leaf dirents the walk records for the
non-directory entries of one directory listing. -/
def mirrorFiles (sha : String → String) : List (String × FSNode) → List (String × Dirent)
  | [] => []
  | (n, .file m c) :: rest => (n, .fileE m c.length (sha c)) :: mirrorFiles sha rest
  | (n, .symlink m t) :: rest => (n, .linkE m t.length t) :: mirrorFiles sha rest
  | (_, .dir _ _) :: rest => mirrorFiles sha rest

mutual

/-- Pure description of the metadata tree the walk builds; the pool state
does not influence the tree (proved by `convertWalk_fst`). -/
def mirrorWalk (sha : String → String) : FSNode → Dirent
  | .file m c => .fileE m c.length (sha c)
  | .symlink m t => .linkE m t.length t
  | .dir m children => .dirE m (mirrorDirs sha children ++ mirrorFiles sha children)

/-- Pure description of the subdirectory dirents of one directory listing. -/
def mirrorDirs (sha : String → String) : List (String × FSNode) → List (String × Dirent)
  | [] => []
  | (n, .dir m cs) :: rest => (n, mirrorWalk sha (.dir m cs)) :: mirrorDirs sha rest
  | (_, .file _ _) :: rest => mirrorDirs sha rest
  | (_, .symlink _ _) :: rest => mirrorDirs sha rest

end

theorem convertFiles_fst (sha : String → String) (l : List (String × FSNode)) (pool : Pool) :
    (convertFiles sha l pool).1 = mirrorFiles sha l := by
  induction l generalizing pool with
  | nil => rfl
  | cons p rest ih =>
      obtain ⟨n, fs⟩ := p
      cases fs with
      | file m c => simp [convertFiles, mirrorFiles, ih]
      | symlink m t => simp [convertFiles, mirrorFiles, ih]
      | dir m cs => simp [convertFiles, mirrorFiles, ih]

mutual

theorem convertWalk_fst (sha : String → String) (fs : FSNode) (pool : Pool) :
    (convertWalk sha fs pool).1 = mirrorWalk sha fs := by
  cases fs with
  | file m c => rfl
  | symlink m t => rfl
  | dir m children =>
      simp only [convertWalk, mirrorWalk]
      rw [convertDirs_fst sha children, convertFiles_fst sha children]

theorem convertDirs_fst (sha : String → String) (l : List (String × FSNode)) (pool : Pool) :
    (convertDirs sha l pool).1 = mirrorDirs sha l := by
  cases l with
  | nil => rfl
  | cons p rest =>
      obtain ⟨n, fs⟩ := p
      cases fs with
      | file m c => simpa [convertDirs, mirrorDirs] using convertDirs_fst sha rest pool
      | symlink m t => simpa [convertDirs, mirrorDirs] using convertDirs_fst sha rest pool
      | dir m cs =>
          simp only [convertDirs, mirrorDirs]
          rw [convertWalk_fst sha (.dir m cs) pool,
            convertDirs_fst sha rest]

end

/-- What one node of the built metadata tree records, paired below with the
node's path: its type, and for regular files the recorded size and content
hash, for symlinks the recorded raw link target. -/
inductive EntryInfo : Type where
  | dirI (mode : Nat)
  | fileI (mode : Nat) (size : Nat) (hash : String)
  | linkI (mode : Nat) (target : String)
deriving DecidableEq

mutual

/-- All (path, recorded info) pairs of a built metadata tree. -/
def direntEntries : Dirent → List (List String × EntryInfo)
  | .fileE m sz h => [([], .fileI m sz h)]
  | .linkE m _ t => [([], .linkI m t)]
  | .dirE m ds => ([], .dirI m) :: direntEntriesList ds

/-- All (path, recorded info) pairs of a list of named metadata subtrees. -/
def direntEntriesList : List (String × Dirent) → List (List String × EntryInfo)
  | [] => []
  | (n, d) :: rest =>
      (direntEntries d).map (fun e => (n :: e.1, e.2)) ++ direntEntriesList rest

end

mutual

/-- Modelled from the spec's fidelity property, on the source subtree:
every directory, regular file and symlink contributes exactly one
(path, info) pair, where a regular file's info is its mode, its size and
the content hash of its original content, and a symlink's info is its mode
and its `readlink` target. -/
def specEntries (sha : String → String) : FSNode → List (List String × EntryInfo)
  | .file m c => [([], .fileI m c.length (sha c))]
  | .symlink m t => [([], .linkI m t)]
  | .dir m children => ([], .dirI m) :: specEntriesList sha children

/-- The (path, info) pairs contributed by a directory's child list, in
filesystem listing order. -/
def specEntriesList (sha : String → String) :
    List (String × FSNode) → List (List String × EntryInfo)
  | [] => []
  | (n, fs) :: rest =>
      (specEntries sha fs).map (fun e => (n :: e.1, e.2)) ++ specEntriesList sha rest

end

theorem direntEntriesList_append (l1 l2 : List (String × Dirent)) :
    direntEntriesList (l1 ++ l2) = direntEntriesList l1 ++ direntEntriesList l2 := by
  induction l1 with
  | nil => rfl
  | cons p rest ih =>
      obtain ⟨n, d⟩ := p
      simp [direntEntriesList, ih]

mutual

theorem mirror_perm (sha : String → String) (fs : FSNode) :
    List.Perm (direntEntries (mirrorWalk sha fs)) (specEntries sha fs) := by
  cases fs with
  | file m c => exact List.Perm.refl _
  | symlink m t => exact List.Perm.refl _
  | dir m children =>
      simp only [mirrorWalk, direntEntries, specEntries]
      exact List.Perm.cons _ (mirror_perm_list sha children)

theorem mirror_perm_list (sha : String → String) (l : List (String × FSNode)) :
    List.Perm (direntEntriesList (mirrorDirs sha l ++ mirrorFiles sha l))
      (specEntriesList sha l) := by
  cases l with
  | nil => exact List.Perm.refl _
  | cons p rest =>
      obtain ⟨n, fs⟩ := p
      cases fs with
      | dir m cs =>
          simp only [mirrorDirs, mirrorFiles, List.cons_append, direntEntriesList,
            specEntriesList, List.append_assoc]
          exact List.Perm.append
            ((mirror_perm sha (.dir m cs)).map _)
            (mirror_perm_list sha rest)
      | file m c =>
          simp only [mirrorDirs, mirrorFiles, specEntriesList,
            direntEntriesList_append, direntEntriesList, direntEntries, List.map]
          refine List.Perm.trans (List.perm_middle) ?_
          exact List.Perm.cons _
            (by
              have := mirror_perm_list sha rest
              rwa [direntEntriesList_append] at this)
      | symlink m t =>
          simp only [mirrorDirs, mirrorFiles, specEntriesList,
            direntEntriesList_append, direntEntriesList, direntEntries, List.map]
          refine List.Perm.trans (List.perm_middle) ?_
          exact List.Perm.cons _
            (by
              have := mirror_perm_list sha rest
              rwa [direntEntriesList_append] at this)

end

/-- Claim C1: the metadata tree built by `UnpackedLayer.convert` is a
faithful structural mirror of the unpacked layer's subtree: its
(path, type-and-recorded-data) pairs are a permutation of the pairs of the
original filesystem subtree (no node added, removed or duplicated), each
regular-file node recording the original file's size and content hash and
each symlink node recording the raw `readlink` target. -/
theorem convert_structural_fidelity (sha : String → String) (fs : FSNode) (pool : Pool) :
    List.Perm (direntEntries (convertWalk sha fs pool).1) (specEntries sha fs) := by
  rw [convertWalk_fst]
  exact mirror_perm sha fs

theorem alLookup_none_not_mem {α : Type} (d : List (String × α)) (k : String)
    (h : alLookup d k = none) : k ∉ d.map Prod.fst := by
  induction d with
  | nil => simp
  | cons p rest ih =>
      obtain ⟨a, b⟩ := p
      by_cases ha : a = k
      · simp [alLookup, ha] at h
      · simp only [alLookup, ha, if_false] at h
        simp only [List.map_cons, List.mem_cons]
        rintro (hk | hk)
        · exact ha hk.symm
        · exact ih h hk

/-- Contents of the regular files among one directory's entries (the
contents the walk pools while handling that directory's `files` list). -/
def filesContents : List (String × FSNode) → List String
  | [] => []
  | (_, .file _ c) :: rest => c :: filesContents rest
  | (_, .symlink _ _) :: rest => filesContents rest
  | (_, .dir _ _) :: rest => filesContents rest

mutual

/-- Contents of all regular files in a subtree. -/
def fsContents : FSNode → List String
  | .file _ c => [c]
  | .symlink _ _ => []
  | .dir _ children => filesContents children ++ dirsContents children

/-- Contents of all regular files below the subdirectory entries of a
directory listing. -/
def dirsContents : List (String × FSNode) → List String
  | [] => []
  | (_, .dir m cs) :: rest => fsContents (.dir m cs) ++ dirsContents rest
  | (_, .file _ _) :: rest => dirsContents rest
  | (_, .symlink _ _) :: rest => dirsContents rest

end

/-- How a pool-writing pass evolves the pool: existing blobs stay, key
uniqueness is preserved, every processed content ends up present, and a
pass whose contents are all present already is a no-op. -/
def PoolEvolves (sha : String → String) (pool pool' : Pool) (cs : List String) : Prop :=
  (∀ h, (alLookup pool h).isSome = true → (alLookup pool' h).isSome = true) ∧
  ((pool.map Prod.fst).Nodup → (pool'.map Prod.fst).Nodup) ∧
  (∀ c ∈ cs, (alLookup pool' (sha c)).isSome = true) ∧
  ((∀ c ∈ cs, (alLookup pool (sha c)).isSome = true) → pool' = pool)

theorem poolEvolves_refl (sha : String → String) (pool : Pool) :
    PoolEvolves sha pool pool [] := by
  refine ⟨fun h hh => hh, id, ?_, fun _ => rfl⟩
  intro c hc
  cases hc

theorem poolEvolves_trans (sha : String → String) (p1 p2 p3 : Pool)
    (cs1 cs2 : List String) (h12 : PoolEvolves sha p1 p2 cs1)
    (h23 : PoolEvolves sha p2 p3 cs2) : PoolEvolves sha p1 p3 (cs1 ++ cs2) := by
  obtain ⟨m12, n12, c12, e12⟩ := h12
  obtain ⟨m23, n23, c23, e23⟩ := h23
  refine ⟨fun h hh => m23 h (m12 h hh), fun hn => n23 (n12 hn), ?_, ?_⟩
  · intro c hc
    rcases List.mem_append.1 hc with hc | hc
    · exact m23 _ (c12 c hc)
    · exact c23 c hc
  · intro hall
    have h1 : ∀ c ∈ cs1, (alLookup p1 (sha c)).isSome = true :=
      fun c hc => hall c (List.mem_append.2 (Or.inl hc))
    have hp2 : p2 = p1 := e12 h1
    have h2 : ∀ c ∈ cs2, (alLookup p2 (sha c)).isSome = true := by
      rw [hp2]
      exact fun c hc => hall c (List.mem_append.2 (Or.inr hc))
    rw [e23 h2, hp2]

theorem poolPut_evolves (sha : String → String) (pool : Pool) (c : String) :
    PoolEvolves sha pool (poolPut sha pool c) [c] := by
  by_cases hp : (alLookup pool (sha c)).isSome = true
  · refine ⟨fun h hh => ?_, fun hn => ?_, fun d hd => ?_, fun _ => ?_⟩ <;>
      simp_all [poolPut]
  · have hnone : alLookup pool (sha c) = none := by
      cases hl : alLookup pool (sha c) with
      | none => rfl
      | some v => rw [hl] at hp; simp at hp
    refine ⟨?_, ?_, ?_, ?_⟩
    · intro h hh
      simp only [poolPut, hnone, Option.isSome_none, Bool.false_eq_true, if_false]
      by_cases hkey : sha c = h
      · simp [alLookup, hkey]
      · simpa [alLookup, hkey] using hh
    · intro hn
      simp only [poolPut, hnone, Option.isSome_none, Bool.false_eq_true, if_false,
        List.map_cons]
      exact List.nodup_cons.2 ⟨alLookup_none_not_mem pool (sha c) hnone, hn⟩
    · intro d hd
      have hdc : d = c := List.mem_singleton.mp hd
      subst hdc
      simp [poolPut, hnone, alLookup]
    · intro hall
      exact absurd (hall c (by simp)) hp

theorem convertFiles_pool (sha : String → String) (l : List (String × FSNode)) (pool : Pool) :
    PoolEvolves sha pool (convertFiles sha l pool).2 (filesContents l) := by
  induction l generalizing pool with
  | nil => exact poolEvolves_refl sha pool
  | cons p rest ih =>
      obtain ⟨n, fs⟩ := p
      cases fs with
      | file m c =>
          have step := poolPut_evolves sha pool c
          have tail := ih (poolPut sha pool c)
          simpa [convertFiles, filesContents] using
            poolEvolves_trans sha _ _ _ [c] (filesContents rest) step tail
      | symlink m t => simpa [convertFiles, filesContents] using ih pool
      | dir m cs => simpa [convertFiles, filesContents] using ih pool

mutual

theorem convertWalk_pool (sha : String → String) (fs : FSNode) (pool : Pool) :
    PoolEvolves sha pool (convertWalk sha fs pool).2 (fsContents fs) := by
  cases fs with
  | file m c => simpa [convertWalk, fsContents] using poolPut_evolves sha pool c
  | symlink m t => simpa [convertWalk, fsContents] using poolEvolves_refl sha pool
  | dir m children =>
      have hf := convertFiles_pool sha children pool
      have hd := convertDirs_pool sha children (convertFiles sha children pool).2
      simpa [convertWalk, fsContents] using
        poolEvolves_trans sha _ _ _ (filesContents children) (dirsContents children) hf hd

theorem convertDirs_pool (sha : String → String) (l : List (String × FSNode)) (pool : Pool) :
    PoolEvolves sha pool (convertDirs sha l pool).2 (dirsContents l) := by
  cases l with
  | nil => exact poolEvolves_refl sha pool
  | cons p rest =>
      obtain ⟨n, fs⟩ := p
      cases fs with
      | file m c => simpa [convertDirs, dirsContents] using convertDirs_pool sha rest pool
      | symlink m t => simpa [convertDirs, dirsContents] using convertDirs_pool sha rest pool
      | dir m cs =>
          have hw := convertWalk_pool sha (.dir m cs) pool
          have hr := convertDirs_pool sha rest (convertWalk sha (.dir m cs) pool).2
          simpa [convertDirs, dirsContents] using
            poolEvolves_trans sha _ _ _ (fsContents (.dir m cs)) (dirsContents rest) hw hr

end

/-- Claim C2: pool insertion is write-once and idempotent.  A repeated
insertion of the same content is the identity; an insertion whose hash is
already pooled is side-effect-free; after an insertion the hash is present;
a whole layer walk keeps pool keys unique (never a second blob under one
hash); and re-running a layer walk over an already-populated pool adds
nothing. -/
theorem pool_insert_write_once (sha : String → String) (pool : Pool) (c : String)
    (fs : FSNode) :
    poolPut sha (poolPut sha pool c) c = poolPut sha pool c
    ∧ ((alLookup pool (sha c)).isSome = true → poolPut sha pool c = pool)
    ∧ (alLookup (poolPut sha pool c) (sha c)).isSome = true
    ∧ ((pool.map Prod.fst).Nodup → ((convertWalk sha fs pool).2.map Prod.fst).Nodup)
    ∧ (convertWalk sha fs (convertWalk sha fs pool).2).2 = (convertWalk sha fs pool).2 := by
  obtain ⟨hmono, hnodup, hcovers, hnoop⟩ := convertWalk_pool sha fs pool
  obtain ⟨_, _, hput, hputnoop⟩ := poolPut_evolves sha pool c
  have hpresent : (alLookup (poolPut sha pool c) (sha c)).isSome = true :=
    hput c (List.mem_singleton.mpr rfl)
  refine ⟨?_, ?_, hpresent, hnodup, ?_⟩
  · show (if (alLookup (poolPut sha pool c) (sha c)).isSome = true then poolPut sha pool c
        else (sha c, c) :: poolPut sha pool c)
      = poolPut sha pool c
    rw [if_pos hpresent]
  · intro hs
    show (if (alLookup pool (sha c)).isSome = true then pool else (sha c, c) :: pool) = pool
    rw [if_pos hs]
  · obtain ⟨_, _, _, hnoop2⟩ := convertWalk_pool sha fs (convertWalk sha fs pool).2
    exact hnoop2 hcovers

/-- Witness for `pool_insert_write_once`: a two-file layer with identical
contents, inserted into an empty pool with the identity as hash. -/
theorem pool_insert_write_once_witness :
    poolPut (fun s => s) (poolPut (fun s => s) [] "hello") "hello"
        = poolPut (fun s => s) [] "hello"
    ∧ ((alLookup ([] : Pool) "hello").isSome = true →
        poolPut (fun s => s) [] "hello" = [])
    ∧ (alLookup (poolPut (fun s => s) [] "hello") "hello").isSome = true
    ∧ ((([] : Pool).map Prod.fst).Nodup →
        (((convertWalk (fun s => s)
            (.dir 16877 [("a.txt", .file 33188 "hello"), ("b.txt", .file 33188 "hello")])
            []).2.map Prod.fst)).Nodup)
    ∧ (convertWalk (fun s => s)
          (.dir 16877 [("a.txt", .file 33188 "hello"), ("b.txt", .file 33188 "hello")])
          ((convertWalk (fun s => s)
            (.dir 16877 [("a.txt", .file 33188 "hello"), ("b.txt", .file 33188 "hello")])
            []).2)).2
        = (convertWalk (fun s => s)
            (.dir 16877 [("a.txt", .file 33188 "hello"), ("b.txt", .file 33188 "hello")])
            []).2 :=
  pool_insert_write_once (fun s => s) [] "hello"
    (.dir 16877 [("a.txt", .file 33188 "hello"), ("b.txt", .file 33188 "hello")])

/-- A JSON-compatible document.  Objects keep key insertion order, which is
what Python's `json.dumps` emits for a dict. -/
inductive Json : Type where
  | str (s : String)
  | num (n : Int)
  | bool (b : Bool)
  | null
  | arr (xs : List Json)
  | obj (kvs : List (String × Json))

/-- JSON string escaping for the two characters the documents here can
contain that need escaping (`json.dumps` additionally escapes control and
non-ASCII characters, which keeps its output pure ASCII). -/
def escChar (c : Char) : List Char :=
  if c = '"' then ['\\', '"'] else if c = '\\' then ['\\', '\\'] else [c]

/-- Escape a string for inclusion in a JSON document. -/
def escString (s : String) : String :=
  String.mk (s.data.foldr (fun c acc => escChar c ++ acc) [])

mutual

/-- Compact JSON serialization with `separators=(',', ':')`, exactly as
`json.dumps(x, separators=jsonSep)` produces it: no whitespace, keys in
insertion order. -/
def jsonSer : Json → String
  | .str s => "\"" ++ escString s ++ "\""
  | .num n => toString n
  | .bool b => if b then "true" else "false"
  | .null => "null"
  | .arr xs => "[" ++ jsonSerArr xs ++ "]"
  | .obj kvs => "\x7b" ++ jsonSerObj kvs ++ "\x7d"

/-- Comma-joined serialization of array elements. -/
def jsonSerArr : List Json → String
  | [] => ""
  | [x] => jsonSer x
  | x :: y :: rest => jsonSer x ++ "," ++ jsonSerArr (y :: rest)

/-- Comma-joined serialization of object members, `"key":value` each. -/
def jsonSerObj : List (String × Json) → String
  | [] => ""
  | [(k, v)] => "\"" ++ escString k ++ "\":" ++ jsonSer v
  | (k, v) :: p :: rest =>
      "\"" ++ escString k ++ "\":" ++ jsonSer v ++ "," ++ jsonSerObj (p :: rest)

end

mutual

/-- The metadata tree as the JSON document `UnpackedLayer.convert` dumps:
directory nodes are `(mode, dirents)` dicts, file nodes `(mode, size, hash)`
and symlink nodes `(mode, size, link)`, keys in that insertion order. -/
def direntJson : Dirent → Json
  | .fileE m sz h =>
      .obj [("mode", .num (Int.ofNat m)), ("size", .num (Int.ofNat sz)), ("hash", .str h)]
  | .linkE m sz t =>
      .obj [("mode", .num (Int.ofNat m)), ("size", .num (Int.ofNat sz)), ("link", .str t)]
  | .dirE m ds =>
      .obj [("mode", .num (Int.ofNat m)), ("dirents", .obj (direntJsonList ds))]

/-- JSON members for a directory node's children. -/
def direntJsonList : List (String × Dirent) → List (String × Json)
  | [] => []
  | (n, d) :: rest => (n, direntJson d) :: direntJsonList rest

end

/-- The `mkdir` helper of `convert.py` applied to a directory state: if the
path exists and `skipIfExist` is set, keep it (returning `false`); otherwise
any existing tree is removed (`shutil.rmtree`) and an empty directory is
created (returning `true`).  The state is the directory's listing, `none`
when the path does not exist yet. -/
def mkdirModel (cur : Option (List (String × String))) (skipIfExist : Bool) :
    Bool × List (String × String) :=
  match cur with
  | some contents => if skipIfExist then (false, contents) else (true, [])
  | none => (true, [])

/-- `UnpackedLayer.convert`: walk the unpacked subtree building the metadata
tree and pooling file contents, then `mkdir(self.src)` (which wipes the
working directory, `skipIfExist` defaulting to false) and write the
serialized tree as the single file `metadata` inside it.  `orig` is the
working directory's listing before the wipe; the result is the listing
after, paired with the updated pool. -/
def convertDir (sha : String → String) (fs : FSNode) (metadata : String) (pool : Pool)
    (orig : List (String × String)) : List (String × String) × Pool :=
  let wp := convertWalk sha fs pool
  let wiped := (mkdirModel (some orig) false).2
  (wiped ++ [(metadata, jsonSer (direntJson wp.1))], wp.2)

/-- Claim C9: `UnpackedLayer.convert` is destructive and one-way: after it
returns, the layer's working directory holds exactly one entry, the
serialized metadata document under the caller-supplied name, and nothing of
the original subtree remains. -/
theorem convert_destroys_working_dir (sha : String → String) (fs : FSNode)
    (metadata : String) (pool : Pool) (orig : List (String × String)) :
    (convertDir sha fs metadata pool orig).1
        = [(metadata, jsonSer (direntJson (mirrorWalk sha fs)))]
    ∧ (convertDir sha fs metadata pool orig).1.length = 1
    ∧ ∀ e ∈ orig, e.1 ≠ metadata → e ∉ (convertDir sha fs metadata pool orig).1 := by
  have h1 : (convertDir sha fs metadata pool orig).1
      = [(metadata, jsonSer (direntJson (mirrorWalk sha fs)))] := by
    simp [convertDir, mkdirModel, convertWalk_fst]
  refine ⟨h1, by rw [h1]; rfl, ?_⟩
  intro e he hne
  rw [h1]
  simp only [List.mem_singleton]
  intro hcontra
  exact hne (by rw [hcontra])

/-- Witness for `convert_destroys_working_dir`: a one-file layer whose
working directory held two entries before the rebuild. -/
theorem convert_destroys_working_dir_witness :
    (convertDir (fun s => s) (.dir 16877 [("a.txt", .file 33188 "hi")]) "metadata.json" []
        [("a.txt", "hi"), ("b", "x")]).1
      = [("metadata.json",
          jsonSer (direntJson (mirrorWalk (fun s => s)
            (.dir 16877 [("a.txt", .file 33188 "hi")]))))]
    ∧ (convertDir (fun s => s) (.dir 16877 [("a.txt", .file 33188 "hi")]) "metadata.json" []
        [("a.txt", "hi"), ("b", "x")]).1.length = 1
    ∧ ∀ e ∈ [("a.txt", "hi"), ("b", "x")], e.1 ≠ "metadata.json" →
        e ∉ (convertDir (fun s => s) (.dir 16877 [("a.txt", .file 33188 "hi")])
          "metadata.json" [] [("a.txt", "hi"), ("b", "x")]).1 :=
  convert_destroys_working_dir (fun s => s) (.dir 16877 [("a.txt", .file 33188 "hi")])
    "metadata.json" [] [("a.txt", "hi"), ("b", "x")]

/-- One record of the parsed `manifest.json` array.  Only the three keys the
converter touches are modeled; `none` models the key being absent (so that
reading it raises `KeyError`). -/
structure ManifestEntry : Type where
  Config : Option String
  RepoTags : Option (List String)
  Layers : Option (List String)

/-- The parsed `repositories` file: repository name → tag version → layer id. -/
abbrev Repos := List (String × List (String × String))

/-- The `repositories` document as JSON. -/
def reposJson (repos : Repos) : Json :=
  .obj (repos.map (fun p => (p.1, .obj (p.2.map (fun q => (q.1, .str q.2))))))

/-- Python `str.split` with a one-character separator: all fields, in order,
empty fields preserved. -/
def splitSep (sep : Char) : List Char → List (List Char)
  | [] => [[]]
  | c :: rest =>
      if c = sep then [] :: splitSep sep rest
      else
        match splitSep sep rest with
        | [] => [[c]]
        | f :: fs => (c :: f) :: fs

/-- `name, ver = tag.split(':')`: succeeds exactly when the split has two
fields, i.e. the tag holds exactly one separator; otherwise Python raises
`ValueError` (modeled as `none`). -/
def splitTag (t : String) : Option (String × String) :=
  match splitSep ':' t.data with
  | [a, b] => some (String.mk a, String.mk b)
  | _ => none

/-- `self._repositories[name][ver]`: two `KeyError` points, both `none`. -/
def lookup2 (repos : Repos) (name ver : String) : Option String :=
  match alLookup repos name with
  | none => none
  | some d => alLookup d ver

/-- `self._repositories[name][ver] = lid`: in-place update of the inner
dict; the outer dict keeps its entries and their order. -/
def reposSet (repos : Repos) (name ver lid : String) : Repos :=
  repos.map (fun p => (p.1, if p.1 = name then alInsert p.2 ver lid else p.2))

/-- `del self._repositories[name][ver]`. -/
def reposDel (repos : Repos) (name ver : String) : Repos :=
  repos.map (fun p => (p.1, if p.1 = name then alErase p.2 ver else p.2))

/-- One iteration's index mutation in the tag-rewrite loop: insert the
`-lazy` key with the old key's layer id, then delete the old key. -/
def retagStep (repos : Repos) (n v lid : String) : Repos :=
  reposDel (reposSet repos n (v ++ "-lazy") lid) n v

/-- Result of the tag-rewrite loop: collected new tag strings, mutated
index, and whether an uncaught exception stopped the loop. -/
structure RWOut : Type where
  tags : List String
  repos : Repos
  err : Bool

/-- The `for tag in self._manifest[0]['RepoTags']` loop of
`Image._writeConfigs`.  On an exception (`ValueError` from unpacking the
split, `KeyError` from the index lookup) the loop stops; mutations made in
earlier iterations remain in the index. -/
def rewriteTags : List String → Repos → RWOut
  | [], repos => ⟨[], repos, false⟩
  | t :: rest, repos =>
      match splitTag t with
      | none => ⟨[], repos, true⟩
      | some (n, v) =>
          match lookup2 repos n v with
          | none => ⟨[], repos, true⟩
          | some lid =>
              let out := rewriteTags rest (retagStep repos n v lid)
              ⟨(n ++ ":" ++ (v ++ "-lazy")) :: out.tags, out.repos, out.err⟩

/-- Result of `Image._writeConfigs`: the files written into the destination
tree (in order), the manifest and repository index after the step, and
whether an uncaught exception aborted it. -/
structure WCOut : Type where
  dstFiles : List (String × String)
  manifest : List ManifestEntry
  repositories : Repos
  err : Bool

/-- `Image._writeConfigs`: serialize the config compactly, hash the
serialized text to derive the new config filename, write that file, point
the manifest's `Config` at it, rewrite every repo tag, then write
`repositories` and `manifest.json` (each with a trailing newline).  The
config file is written before the tag loop runs, so a tag failure leaves it
(and the manifest's updated `Config` field) in place. -/
def writeConfigs (shaS : String → String) (serMan : List ManifestEntry → String)
    (config : Json) (manifest : List ManifestEntry) (repos : Repos) : WCOut :=
  let ser := jsonSer config
  let configName := shaS ser ++ ".json"
  let written := [(configName, ser)]
  match manifest with
  | [] => ⟨written, [], repos, true⟩
  | m0 :: rest =>
      let m1 : ManifestEntry := { m0 with Config := some configName }
      match m1.RepoTags with
      | none => ⟨written, m1 :: rest, repos, true⟩
      | some tags =>
          let r := rewriteTags tags repos
          if r.err then ⟨written, m1 :: rest, r.repos, true⟩
          else
            let m2 : ManifestEntry := { m1 with RepoTags := some r.tags }
            ⟨written ++ [("repositories", jsonSer (reposJson r.repos) ++ "\n"),
                ("manifest.json", serMan (m2 :: rest) ++ "\n")],
              m2 :: rest, r.repos, false⟩

/-- Claim C5: the config is serialized deterministically (fixed function,
insertion-order keys, compact separators), and the config file written into
the destination tree is named by the hash of exactly the serialized bytes
written, so re-hashing the written content reproduces the filename.  The
second conjunct exhibits the compact serialization on a sample config. -/
theorem config_content_addressed (shaS : String → String)
    (serMan : List ManifestEntry → String) (config : Json)
    (manifest : List ManifestEntry) (repos : Repos) :
    (writeConfigs shaS serMan config manifest repos).dstFiles.head?
        = some (shaS (jsonSer config) ++ ".json", jsonSer config)
    ∧ jsonSer (.obj [("rootfs", .obj [("diff_ids",
          .arr [.str "sha256:aa", .str "sha256:bb"])]), ("os", .str "linux")])
        = "\x7b\"rootfs\":\x7b\"diff_ids\":[\"sha256:aa\",\"sha256:bb\"]\x7d,\"os\":\"linux\"\x7d" := by
  constructor
  · unfold writeConfigs
    cases manifest with
    | nil => rfl
    | cons m0 rest =>
        cases hrt : m0.RepoTags with
        | none => simp [hrt]
        | some tags =>
            by_cases herr : (rewriteTags tags repos).err = true
            · simp [hrt, herr]
            · simp [hrt, herr]
  · rfl

theorem splitSep_no_sep (sep : Char) (xs : List Char) (h : sep ∉ xs) :
    splitSep sep xs = [xs] := by
  induction xs with
  | nil => rfl
  | cons c rest ih =>
      have hc : ¬ c = sep := fun hcs => h (hcs ▸ List.mem_cons_self c rest)
      have hr : sep ∉ rest := fun hm => h (List.mem_cons_of_mem c hm)
      simp [splitSep, hc, ih hr]

theorem splitSep_append_sep (sep : Char) (xs ys : List Char) (h : sep ∉ xs) :
    splitSep sep (xs ++ sep :: ys) = xs :: splitSep sep ys := by
  induction xs with
  | nil => simp [splitSep]
  | cons c rest ih =>
      have hc : ¬ c = sep := fun hcs => h (hcs ▸ List.mem_cons_self c rest)
      have hr : sep ∉ rest := fun hm => h (List.mem_cons_of_mem c hm)
      simp [splitSep, hc, ih hr]

theorem splitSep_length (sep : Char) (cs : List Char) :
    (splitSep sep cs).length = cs.count sep + 1 := by
  induction cs with
  | nil => rfl
  | cons c rest ih =>
      by_cases hc : c = sep
      · subst hc
        simp [splitSep, List.count_cons, ih]
      · cases hsp : splitSep sep rest with
        | nil => rw [hsp] at ih; simp at ih
        | cons f fs =>
            rw [hsp] at ih
            simp only [splitSep, hc, if_false, hsp]
            simpa [List.count_cons, hc] using ih

theorem splitTag_concat (name ver : String) (h1 : ':' ∉ name.data) (h2 : ':' ∉ ver.data) :
    splitTag (name ++ ":" ++ ver) = some (name, ver) := by
  have hdata : (name ++ ":" ++ ver).data = name.data ++ ':' :: ver.data := by
    have hcolon : (":" : String).data = [':'] := rfl
    rw [String.data_append, String.data_append, hcolon, List.append_assoc]
    rfl
  unfold splitTag
  rw [hdata, splitSep_append_sep ':' name.data ver.data h1, splitSep_no_sep ':' ver.data h2]

theorem splitTag_bad_count (t : String) (hbad : t.data.count ':' ≠ 1) :
    splitTag t = none := by
  have hlen : (splitSep ':' t.data).length ≠ 2 := by
    rw [splitSep_length]
    omega
  unfold splitTag
  cases hsp : splitSep ':' t.data with
  | nil => rfl
  | cons a l =>
      cases l with
      | nil => rfl
      | cons b l2 =>
          cases l2 with
          | nil =>
              rw [hsp] at hlen
              simp at hlen
          | cons c l3 => rfl

/-- Claim C8: tag rewriting splits on exactly one separator.  A tag
`name ++ ":" ++ ver` with no further separator splits into `(name, ver)`
and (when its index entry exists) is rewritten to `name:ver-lazy`; a tag
with any other number of separators fails the split, so the rewrite loop
stops with the uncaught `ValueError` instead of producing a rewritten
tag. -/
theorem tag_split_one_separator (name ver t : String) (repos : Repos)
    (rest : List String) (h1 : ':' ∉ name.data) (h2 : ':' ∉ ver.data)
    (hbad : t.data.count ':' ≠ 1) :
    splitTag (name ++ ":" ++ ver) = some (name, ver)
    ∧ (∀ lid, lookup2 repos name ver = some lid →
        (rewriteTags [name ++ ":" ++ ver] repos).err = false
        ∧ (rewriteTags [name ++ ":" ++ ver] repos).tags
            = [name ++ ":" ++ (ver ++ "-lazy")])
    ∧ splitTag t = none
    ∧ (rewriteTags (t :: rest) repos).err = true := by
  have hsp := splitTag_concat name ver h1 h2
  have hb := splitTag_bad_count t hbad
  refine ⟨hsp, ?_, hb, ?_⟩
  · intro lid hlk
    constructor
    · simp [rewriteTags, hsp, hlk]
    · simp [rewriteTags, hsp, hlk]
  · simp [rewriteTags, hb]

/-- Witness for `tag_split_one_separator`: the well-formed tag
`myimage:1.0` and the unsupported registry-port tag
`localhost:5000/img:1.0`. -/
theorem tag_split_one_separator_witness :
    splitTag ("myimage" ++ ":" ++ "1.0") = some ("myimage", "1.0")
    ∧ (∀ lid, lookup2 [("myimage", [("1.0", "lid0")])] "myimage" "1.0" = some lid →
        (rewriteTags ["myimage" ++ ":" ++ "1.0"] [("myimage", [("1.0", "lid0")])]).err = false
        ∧ (rewriteTags ["myimage" ++ ":" ++ "1.0"] [("myimage", [("1.0", "lid0")])]).tags
            = ["myimage" ++ ":" ++ ("1.0" ++ "-lazy")])
    ∧ splitTag "localhost:5000/img:1.0" = none
    ∧ (rewriteTags ["localhost:5000/img:1.0"] [("myimage", [("1.0", "lid0")])]).err = true :=
  tag_split_one_separator "myimage" "1.0" "localhost:5000/img:1.0"
    [("myimage", [("1.0", "lid0")])] [] (by decide) (by decide) (by decide)

theorem alLookup_map_values {α : Type} (g : String → α → α) (d : List (String × α))
    (k : String) :
    alLookup (d.map (fun p => (p.1, g p.1 p.2))) k = (alLookup d k).map (g k) := by
  induction d with
  | nil => rfl
  | cons p rest ih =>
      obtain ⟨a, b⟩ := p
      by_cases ha : a = k
      · subst ha
        simp [alLookup]
      · simp [alLookup, ha, ih]

theorem lookup2_set_ne (repos : Repos) (n v lid n' k : String) (h : n' ≠ n) :
    lookup2 (reposSet repos n v lid) n' k = lookup2 repos n' k := by
  unfold lookup2 reposSet
  rw [alLookup_map_values (fun a d => if a = n then alInsert d v lid else d) repos n']
  cases alLookup repos n' with
  | none => rfl
  | some d => simp [h]

theorem lookup2_set_eq_ne (repos : Repos) (n v lid k : String) (h : k ≠ v) :
    lookup2 (reposSet repos n v lid) n k = lookup2 repos n k := by
  unfold lookup2 reposSet
  rw [alLookup_map_values (fun a d => if a = n then alInsert d v lid else d) repos n]
  cases alLookup repos n with
  | none => rfl
  | some d => simp [alLookup_insert_ne d v k lid h]

theorem lookup2_set_eq_eq (repos : Repos) (n v lid : String) (d : List (String × String))
    (h : alLookup repos n = some d) :
    lookup2 (reposSet repos n v lid) n v = some lid := by
  unfold lookup2 reposSet
  rw [alLookup_map_values (fun a d => if a = n then alInsert d v lid else d) repos n, h]
  simp [alLookup_insert_self]

theorem lookup2_del_ne (repos : Repos) (n v n' k : String) (h : n' ≠ n) :
    lookup2 (reposDel repos n v) n' k = lookup2 repos n' k := by
  unfold lookup2 reposDel
  rw [alLookup_map_values (fun a d => if a = n then alErase d v else d) repos n']
  cases alLookup repos n' with
  | none => rfl
  | some d => simp [h]

theorem lookup2_del_eq_ne (repos : Repos) (n v k : String) (h : k ≠ v) :
    lookup2 (reposDel repos n v) n k = lookup2 repos n k := by
  unfold lookup2 reposDel
  rw [alLookup_map_values (fun a d => if a = n then alErase d v else d) repos n]
  cases alLookup repos n with
  | none => rfl
  | some d => simp [alLookup_erase_ne d v k h]

theorem lookup2_del_eq_eq (repos : Repos) (n v : String) :
    lookup2 (reposDel repos n v) n v = none := by
  unfold lookup2 reposDel
  rw [alLookup_map_values (fun a d => if a = n then alErase d v else d) repos n]
  cases alLookup repos n with
  | none => rfl
  | some d => simp [alLookup_erase_self]

theorem append_lazy_ne (v : String) : v ++ "-lazy" ≠ v := by
  intro h
  have hl := congrArg String.length h
  rw [String.length_append] at hl
  have h5 : ("-lazy" : String).length = 5 := rfl
  omega

theorem append_lazy_right_cancel (a b : String) (h : a ++ "-lazy" = b ++ "-lazy") :
    a = b := by
  have hd := congrArg String.data h
  rw [String.data_append, String.data_append] at hd
  exact String.ext (List.append_cancel_right hd)

theorem lookup2_retag_ne (repos : Repos) (n v lid n' k : String) (h : n' ≠ n) :
    lookup2 (retagStep repos n v lid) n' k = lookup2 repos n' k := by
  unfold retagStep
  rw [lookup2_del_ne _ _ _ _ _ h, lookup2_set_ne _ _ _ _ _ _ h]

theorem lookup2_retag_same_other (repos : Repos) (n v lid k : String)
    (hk1 : k ≠ v) (hk2 : k ≠ v ++ "-lazy") :
    lookup2 (retagStep repos n v lid) n k = lookup2 repos n k := by
  unfold retagStep
  rw [lookup2_del_eq_ne _ _ _ _ hk1, lookup2_set_eq_ne _ _ _ _ _ hk2]

theorem lookup2_retag_old (repos : Repos) (n v lid : String) :
    lookup2 (retagStep repos n v lid) n v = none := by
  unfold retagStep
  exact lookup2_del_eq_eq _ _ _

theorem lookup2_retag_new (repos : Repos) (n v lid : String)
    (d : List (String × String)) (h : alLookup repos n = some d) :
    lookup2 (retagStep repos n v lid) n (v ++ "-lazy") = some lid := by
  unfold retagStep
  rw [lookup2_del_eq_ne _ _ _ _ (append_lazy_ne v)]
  exact lookup2_set_eq_eq _ _ _ _ _ h

theorem mem_pairs_of_mem_tags (tags : List String) (pairs : List (String × String))
    (t : String) (pr : String × String) (hsp : splitTag t = some pr)
    (hp : tags.map splitTag = pairs.map some) (ht : t ∈ tags) : pr ∈ pairs := by
  induction tags generalizing pairs with
  | nil => cases ht
  | cons t0 rest ih =>
      cases pairs with
      | nil => simp at hp
      | cons p0 ps =>
          simp only [List.map_cons, List.cons.injEq] at hp
          obtain ⟨hh, htl⟩ := hp
          rcases List.mem_cons.1 ht with h0 | hres
          · subst h0
            rw [hsp] at hh
            exact List.mem_cons.2 (Or.inl (Option.some.inj hh))
          · exact List.mem_cons.2 (Or.inr (ih ps htl hres))

theorem rewriteTags_preserves (tags : List String) (repos : Repos) (n k : String)
    (hno : ∀ t ∈ tags, ∀ a b, splitTag t = some (a, b) → a = n →
        b ≠ k ∧ b ++ "-lazy" ≠ k) :
    lookup2 (rewriteTags tags repos).repos n k = lookup2 repos n k := by
  induction tags generalizing repos with
  | nil => rfl
  | cons t rest ih =>
      cases hsp : splitTag t with
      | none => simp [rewriteTags, hsp]
      | some pv =>
          obtain ⟨a, b⟩ := pv
          cases hlk : lookup2 repos a b with
          | none => simp [rewriteTags, hsp, hlk]
          | some lid =>
              have hrest : ∀ t' ∈ rest, ∀ a b, splitTag t' = some (a, b) → a = n →
                  b ≠ k ∧ b ++ "-lazy" ≠ k :=
                fun t' ht' => hno t' (List.mem_cons_of_mem t ht')
              have hstep : lookup2 (retagStep repos a b lid) n k = lookup2 repos n k := by
                by_cases han : a = n
                · obtain ⟨hb1, hb2⟩ := hno t (List.mem_cons_self t rest) a b hsp han
                  subst han
                  exact lookup2_retag_same_other repos a b lid k (Ne.symm hb1) (Ne.symm hb2)
                · exact lookup2_retag_ne repos a b lid n k (fun hna => han hna.symm)
              simp only [rewriteTags, hsp, hlk]
              rw [ih (retagStep repos a b lid) hrest, hstep]

theorem rewriteTags_effect (tags : List String) (pairs : List (String × String))
    (repos : Repos)
    (hp : tags.map splitTag = pairs.map some)
    (hpres : ∀ p ∈ pairs, (lookup2 repos p.1 p.2).isSome = true)
    (hnd : pairs.Nodup)
    (hlazy : ∀ p ∈ pairs, ∀ q ∈ pairs, p.1 = q.1 → q.2 ≠ p.2 ++ "-lazy") :
    (rewriteTags tags repos).err = false
    ∧ ∀ p ∈ pairs,
        (p.1 ++ ":" ++ (p.2 ++ "-lazy")) ∈ (rewriteTags tags repos).tags
        ∧ lookup2 (rewriteTags tags repos).repos p.1 p.2 = none
        ∧ lookup2 (rewriteTags tags repos).repos p.1 (p.2 ++ "-lazy")
            = lookup2 repos p.1 p.2 := by
  induction tags generalizing pairs repos with
  | nil =>
      cases pairs with
      | nil =>
          refine ⟨rfl, ?_⟩
          intro p hp2
          cases hp2
      | cons p ps => simp at hp
  | cons t rest ih =>
      cases pairs with
      | nil => simp at hp
      | cons p0 ps =>
          obtain ⟨n0, v0⟩ := p0
          simp only [List.map_cons, List.cons.injEq] at hp
          obtain ⟨hh, htl⟩ := hp
          have hpres0 := hpres (n0, v0) (List.mem_cons_self _ _)
          cases hlk : lookup2 repos n0 v0 with
          | none =>
              rw [hlk] at hpres0
              simp at hpres0
          | some lid =>
          have hrep : ∃ d, alLookup repos n0 = some d := by
            unfold lookup2 at hlk
            cases hal : alLookup repos n0 with
            | none => rw [hal] at hlk; cases hlk
            | some d => exact ⟨d, rfl⟩
          obtain ⟨d0, hd0⟩ := hrep
          have hnotin : (n0, v0) ∉ ps := (List.nodup_cons.1 hnd).1
          have hnd' : ps.Nodup := (List.nodup_cons.1 hnd).2
          have hkeyq : ∀ q ∈ ps, q.1 = n0 → q.2 ≠ v0 ∧ q.2 ≠ v0 ++ "-lazy" := by
            intro q hq hq1
            obtain ⟨qa, qb⟩ := q
            constructor
            · intro hq2
              apply hnotin
              have hqe : ((qa, qb) : String × String) = (n0, v0) := by
                rw [show qa = n0 from hq1, show qb = v0 from hq2]
              rwa [hqe] at hq
            · exact hlazy (n0, v0) (List.mem_cons_self _ _) (qa, qb)
                (List.mem_cons_of_mem _ hq) hq1.symm
          have hstep_pres : ∀ q ∈ ps,
              lookup2 (retagStep repos n0 v0 lid) q.1 q.2 = lookup2 repos q.1 q.2 := by
            intro q hq
            by_cases hq1 : q.1 = n0
            · obtain ⟨h1, h2⟩ := hkeyq q hq hq1
              rw [hq1]
              exact lookup2_retag_same_other repos n0 v0 lid q.2 h1 h2
            · exact lookup2_retag_ne repos n0 v0 lid q.1 q.2 hq1
          have hpres' : ∀ q ∈ ps,
              (lookup2 (retagStep repos n0 v0 lid) q.1 q.2).isSome = true := by
            intro q hq
            rw [hstep_pres q hq]
            exact hpres q (List.mem_cons_of_mem _ hq)
          have hlazy' : ∀ p ∈ ps, ∀ q ∈ ps, p.1 = q.1 → q.2 ≠ p.2 ++ "-lazy" :=
            fun p hp2 q hq =>
              hlazy p (List.mem_cons_of_mem _ hp2) q (List.mem_cons_of_mem _ hq)
          obtain ⟨herr', hall'⟩ :=
            ih ps (retagStep repos n0 v0 lid) htl hpres' hnd' hlazy'
          have hno_old : ∀ t' ∈ rest, ∀ a b, splitTag t' = some (a, b) → a = n0 →
              b ≠ v0 ∧ b ++ "-lazy" ≠ v0 := by
            intro t' ht' a b hsp' ha
            have hqin : (a, b) ∈ ps := mem_pairs_of_mem_tags rest ps t' (a, b) hsp' htl ht'
            constructor
            · intro hb
              apply hnotin
              have hab : ((a, b) : String × String) = (n0, v0) := by rw [ha, hb]
              rwa [hab] at hqin
            · have hv := hlazy (a, b) (List.mem_cons_of_mem _ hqin) (n0, v0)
                (List.mem_cons_self _ _) ha
              exact fun hc => hv hc.symm
          have hno_new : ∀ t' ∈ rest, ∀ a b, splitTag t' = some (a, b) → a = n0 →
              b ≠ v0 ++ "-lazy" ∧ b ++ "-lazy" ≠ v0 ++ "-lazy" := by
            intro t' ht' a b hsp' ha
            have hqin : (a, b) ∈ ps := mem_pairs_of_mem_tags rest ps t' (a, b) hsp' htl ht'
            constructor
            · exact hlazy (n0, v0) (List.mem_cons_self _ _) (a, b)
                (List.mem_cons_of_mem _ hqin) ha.symm
            · intro hc
              have hb : b = v0 := append_lazy_right_cancel _ _ hc
              apply hnotin
              have hab : ((a, b) : String × String) = (n0, v0) := by rw [ha, hb]
              rwa [hab] at hqin
          have hpres_old :
              lookup2 (rewriteTags rest (retagStep repos n0 v0 lid)).repos n0 v0
                = lookup2 (retagStep repos n0 v0 lid) n0 v0 :=
            rewriteTags_preserves rest (retagStep repos n0 v0 lid) n0 v0 hno_old
          have hpres_new :
              lookup2 (rewriteTags rest (retagStep repos n0 v0 lid)).repos n0 (v0 ++ "-lazy")
                = lookup2 (retagStep repos n0 v0 lid) n0 (v0 ++ "-lazy") :=
            rewriteTags_preserves rest (retagStep repos n0 v0 lid) n0 (v0 ++ "-lazy") hno_new
          refine ⟨?_, ?_⟩
          · simp only [rewriteTags, hh, hlk]
            exact herr'
          · intro p hpmem
            rcases List.mem_cons.1 hpmem with h0 | hps
            · subst h0
              refine ⟨?_, ?_, ?_⟩
              · simp only [rewriteTags, hh, hlk]
                exact List.mem_cons_self _ _
              · simp only [rewriteTags, hh, hlk]
                rw [hpres_old, lookup2_retag_old]
              · simp only [rewriteTags, hh, hlk]
                rw [hpres_new, lookup2_retag_new repos n0 v0 lid d0 hd0, ← hlk]
            · obtain ⟨htag, hnone, hlazyeq⟩ := hall' p hps
              refine ⟨?_, ?_, ?_⟩
              · simp only [rewriteTags, hh, hlk]
                exact List.mem_cons_of_mem _ htag
              · simp only [rewriteTags, hh, hlk]
                exact hnone
              · simp only [rewriteTags, hh, hlk]
                rw [hlazyeq, hstep_pres p hps]

/-- Counterexample to claim C4 as stated: with RepoTags
`["a:1.0", "a:1.0-lazy"]` and both versions present in the index, the
conversion's tag loop completes without error, yet afterwards the index
holds no `1.0-lazy` key under `a` (the second tag's rewrite deleted it), so
the tag `a:1.0` — whose entry existed — does not end up re-keyed to
`1.0-lazy` as the claim requires. -/
theorem tag_rewrite_counterexample :
    (rewriteTags ["a:1.0", "a:1.0-lazy"]
        [("a", [("1.0", "L1"), ("1.0-lazy", "L2")])]).err = false
    ∧ lookup2 (rewriteTags ["a:1.0", "a:1.0-lazy"]
        [("a", [("1.0", "L1"), ("1.0-lazy", "L2")])]).repos "a" "1.0-lazy" = none := by
  constructor
  · rfl
  · rfl

/-- Claim C4 (amended): for every tag `name:version` in the manifest's
RepoTags whose entry exists in the RepositoryIndex — provided the tags
parse to pairwise-distinct (name, version) pairs and no tag's version is
another same-name tag's version with `-lazy` appended — the write step
succeeds, the output RepoTags contains `name:version-lazy`, and the index
under `name` no longer has the `version` key but maps `version-lazy` to the
layer id the old key mapped to (re-keyed, not duplicated). -/
theorem tag_rewrite_rekeys (shaS : String → String)
    (serMan : List ManifestEntry → String) (config : Json)
    (m0 : ManifestEntry) (rest : List ManifestEntry) (repos : Repos)
    (tags : List String) (pairs : List (String × String))
    (hm : m0.RepoTags = some tags)
    (hp : tags.map splitTag = pairs.map some)
    (hpres : ∀ p ∈ pairs, (lookup2 repos p.1 p.2).isSome = true)
    (hnd : pairs.Nodup)
    (hlazy : ∀ p ∈ pairs, ∀ q ∈ pairs, p.1 = q.1 → q.2 ≠ p.2 ++ "-lazy")
    (name ver : String) (hmem : (name, ver) ∈ pairs) :
    (writeConfigs shaS serMan config (m0 :: rest) repos).err = false
    ∧ (∃ outTags,
        (writeConfigs shaS serMan config (m0 :: rest) repos).manifest.head?
          = some { m0 with
              Config := some (shaS (jsonSer config) ++ ".json")
              RepoTags := some outTags }
        ∧ (name ++ ":" ++ (ver ++ "-lazy")) ∈ outTags)
    ∧ lookup2 (writeConfigs shaS serMan config (m0 :: rest) repos).repositories
        name ver = none
    ∧ lookup2 (writeConfigs shaS serMan config (m0 :: rest) repos).repositories
        name (ver ++ "-lazy") = lookup2 repos name ver := by
  obtain ⟨herr, hall⟩ := rewriteTags_effect tags pairs repos hp hpres hnd hlazy
  obtain ⟨htag, hnone, heq⟩ := hall (name, ver) hmem
  simp only [writeConfigs, hm, herr, Bool.false_eq_true, if_false, List.head?_cons]
  refine ⟨trivial, ⟨(rewriteTags tags repos).tags, ?_, htag⟩, hnone, heq⟩
  rfl

/-- Witness for `tag_rewrite_rekeys`: one tag `myimage:1.0` over an index
holding `myimage → 1.0 → lid0`. -/
theorem tag_rewrite_rekeys_witness :
    lookup2 (writeConfigs (fun _ => "h") (fun _ => "m") Json.null
        [⟨some "cfg", some ["myimage:1.0"], some []⟩]
        [("myimage", [("1.0", "lid0")])]).repositories
      "myimage" ("1.0" ++ "-lazy")
      = lookup2 [("myimage", [("1.0", "lid0")])] "myimage" "1.0" :=
  (tag_rewrite_rekeys (fun _ => "h") (fun _ => "m") Json.null
      ⟨some "cfg", some ["myimage:1.0"], some []⟩ [] [("myimage", [("1.0", "lid0")])]
      ["myimage:1.0"] [("myimage", "1.0")] rfl (by decide) (by decide) (by decide)
      (by decide) "myimage" "1.0" (by decide)).2.2.2

/-- The id `Layer(path)` / `UnpackedLayer(path)` extract: the name of the
path's parent directory within the extracted source tree `orig` (the tree
root itself when the path has no directory part). -/
def layerIdOf (x : String) : String :=
  ((("orig/" ++ x).splitOn "/").dropLast).getLastD ""

/-- An unpacked layer: its id and the filesystem tree extraction produced. -/
structure UL : Type where
  id : String
  fs : FSNode

/-- The environment one conversion runs in: the state of the source
extraction directory, the extraction subprocess's exit code, the parsed
documents of the extracted source tree, the filesystem tree each layer
archive extracts to, and the source tree's file contents (for the sidecar
copies). -/
structure Env : Type where
  srcDirExists : Bool
  untarExit : Int
  manifest : List ManifestEntry
  repositories : Repos
  config : Json
  extract : String → FSNode
  srcFile : String → String

/-- `Image._untar`: skip extraction when the destination directory already
exists (`mkdir(..., skipIfExist=True)` returned False); otherwise run
`tar -xf`.  A nonzero exit is reported with `logging.fatal` — which only
logs — and the method returns normally either way.  Result: (extraction
ran, fatal message logged). -/
def untarStep (env : Env) : Bool × Bool :=
  if env.srcDirExists then (false, false)
  else (true, env.untarExit != 0)

/-- What `Image._loadManifest` leaves behind on success. -/
structure Loaded : Type where
  entry : ManifestEntry
  configDoc : Json
  repositories : Repos
  layerPaths : List String

/-- `Image._loadManifest`: read the manifest and repositories, open the
config document named by `manifest[0]['Config']`, build the packed-layer
handles from `manifest[0]['Layers']` in order, and log
`manifest[0]['RepoTags']`.  A missing record or key raises (`none`),
aborting the conversion before any layer is touched. -/
def loadManifest (env : Env) : Option Loaded :=
  match env.manifest.head? with
  | none => none
  | some m0 =>
      match m0.Config with
      | none => none
      | some _ =>
          match m0.Layers with
          | none => none
          | some ls =>
              match m0.RepoTags with
              | none => none
              | some _ => some ⟨m0, env.config, env.repositories, ls⟩

/-- State threaded through `Image._assembleLayers`. -/
structure ALState : Type where
  pool : Pool
  config : Json
  dstFiles : List (String × String)
  diffIds : List String
  err : Bool

/-- `self._config['rootfs']['diff_ids'] = []`: raises (`none`) unless the
config is an object holding an object under `rootfs`. -/
def configInitDiffIds (config : Json) : Option Json :=
  match config with
  | .obj kvs =>
      match alLookup kvs "rootfs" with
      | some (.obj rkvs) =>
          some (.obj (alInsert kvs "rootfs" (.obj (alInsert rkvs "diff_ids" (.arr [])))))
      | _ => none
  | _ => none

/-- `self._config['rootfs']['diff_ids'].append(checksum)`. -/
def configAppendDiffId (config : Json) (c : String) : Option Json :=
  match config with
  | .obj kvs =>
      match alLookup kvs "rootfs" with
      | some (.obj rkvs) =>
          match alLookup rkvs "diff_ids" with
          | some (.arr xs) =>
              some (.obj (alInsert kvs "rootfs"
                (.obj (alInsert rkvs "diff_ids" (.arr (xs ++ [.str c]))))))
          | _ => none
      | _ => none
  | _ => none

/-- One iteration of `Image._assembleLayers`: convert the layer in place
(metadata document `metadata.json`), pack the rebuilt directory as
`<id>/layer.tar`, tag its hash with `sha256:`, append that checksum to the
config's diff-id list, and copy the `VERSION`/`json` sidecars unchanged. -/
def assembleStep (sha : String → String) (tar : List (String × String) → String)
    (srcFile : String → String) (st : ALState) (l : UL) : ALState :=
  if st.err then st
  else
    let cd := convertDir sha l.fs "metadata.json" st.pool []
    let tarBytes := tar cd.1
    let checksum := "sha256:" ++ sha tarBytes
    match configAppendDiffId st.config checksum with
    | none => { st with pool := cd.2, err := true }
    | some config1 =>
        { pool := cd.2, config := config1,
          dstFiles := st.dstFiles ++ [(l.id ++ "/layer.tar", tarBytes),
            (l.id ++ "/VERSION", srcFile (l.id ++ "/VERSION")),
            (l.id ++ "/json", srcFile (l.id ++ "/json"))],
          diffIds := st.diffIds ++ [checksum], err := false }

/-- `Image._assembleLayers`: create the destination tree, reset the
config's diff-id list, then run `assembleStep` over the unpacked layers in
manifest order. -/
def assembleLayers (sha : String → String) (tar : List (String × String) → String)
    (srcFile : String → String) (config : Json) (pool : Pool) (uls : List UL) : ALState :=
  match configInitDiffIds config with
  | none => { pool := pool, config := config, dstFiles := [], diffIds := [], err := true }
  | some config0 =>
      uls.foldl (assembleStep sha tar srcFile)
        { pool := pool, config := config0, dstFiles := [], diffIds := [], err := false }

/-- The observable outcome of one `Image.convert` run. -/
structure ConvResult : Type where
  untarRan : Bool
  untarFatalLogged : Bool
  loadOk : Bool
  dstCreated : Bool
  pool : Pool
  diffIds : List String
  config : Json
  manifest : List ManifestEntry
  repositories : Repos
  dstFiles : List (String × String)
  err : Bool

/-- `Image.convert`: the phases in order — `_untar` (never aborts; a
nonzero extraction exit is only logged), `_loadManifest` (aborts on a
missing key, before any layer is touched), `_unpackLayers`,
`_assembleLayers` (creates the destination tree, fills the pool, records
the diff-ids), `_writeConfigs`, `_assembleTarget`. -/
def imageConvert (sha : String → String) (tar : List (String × String) → String)
    (serMan : List ManifestEntry → String) (env : Env) (pool0 : Pool) : ConvResult :=
  let u := untarStep env
  match loadManifest env with
  | none =>
      { untarRan := u.1, untarFatalLogged := u.2, loadOk := false, dstCreated := false,
        pool := pool0, diffIds := [], config := env.config, manifest := env.manifest,
        repositories := env.repositories, dstFiles := [], err := true }
  | some ld =>
      let uls := ld.layerPaths.map (fun x => UL.mk (layerIdOf x) (env.extract x))
      let st := assembleLayers sha tar env.srcFile ld.configDoc pool0 uls
      if st.err then
        { untarRan := u.1, untarFatalLogged := u.2, loadOk := true, dstCreated := true,
          pool := st.pool, diffIds := st.diffIds, config := st.config,
          manifest := env.manifest, repositories := env.repositories,
          dstFiles := st.dstFiles, err := true }
      else
        let wc := writeConfigs sha serMan st.config env.manifest env.repositories
        { untarRan := u.1, untarFatalLogged := u.2, loadOk := true, dstCreated := true,
          pool := st.pool, diffIds := st.diffIds, config := st.config,
          manifest := wc.manifest, repositories := wc.repositories,
          dstFiles := st.dstFiles ++ wc.dstFiles, err := wc.err }

/-- Claim C7: when the manifest's first record lacks the `Config` key, the
conversion aborts during manifest loading, before any layer is unpacked or
converted: the pool is exactly as before, the destination tree is never
created, and nothing is written into it. -/
theorem missing_config_aborts_early (sha : String → String)
    (tar : List (String × String) → String) (serMan : List ManifestEntry → String)
    (env : Env) (pool0 : Pool) (m0 : ManifestEntry) (rest : List ManifestEntry)
    (hm : env.manifest = m0 :: rest) (hc : m0.Config = none) :
    (imageConvert sha tar serMan env pool0).err = true
    ∧ (imageConvert sha tar serMan env pool0).loadOk = false
    ∧ (imageConvert sha tar serMan env pool0).pool = pool0
    ∧ (imageConvert sha tar serMan env pool0).dstCreated = false
    ∧ (imageConvert sha tar serMan env pool0).dstFiles = [] := by
  have hload : loadManifest env = none := by
    unfold loadManifest
    rw [hm]
    simp [hc]
  unfold imageConvert
  rw [hload]
  exact ⟨rfl, rfl, rfl, rfl, rfl⟩

/-- Witness for `missing_config_aborts_early`: a manifest record with no
`Config` key. -/
theorem missing_config_aborts_early_witness :
    (imageConvert (fun s => s) (fun _ => "T") (fun _ => "M")
        ⟨false, 0, [⟨none, some ["a:1"], some ["x/layer.tar"]⟩], [], Json.null,
          fun _ => .dir 0 [], fun _ => ""⟩ []).err = true
    ∧ (imageConvert (fun s => s) (fun _ => "T") (fun _ => "M")
        ⟨false, 0, [⟨none, some ["a:1"], some ["x/layer.tar"]⟩], [], Json.null,
          fun _ => .dir 0 [], fun _ => ""⟩ []).loadOk = false
    ∧ (imageConvert (fun s => s) (fun _ => "T") (fun _ => "M")
        ⟨false, 0, [⟨none, some ["a:1"], some ["x/layer.tar"]⟩], [], Json.null,
          fun _ => .dir 0 [], fun _ => ""⟩ []).pool = []
    ∧ (imageConvert (fun s => s) (fun _ => "T") (fun _ => "M")
        ⟨false, 0, [⟨none, some ["a:1"], some ["x/layer.tar"]⟩], [], Json.null,
          fun _ => .dir 0 [], fun _ => ""⟩ []).dstCreated = false
    ∧ (imageConvert (fun s => s) (fun _ => "T") (fun _ => "M")
        ⟨false, 0, [⟨none, some ["a:1"], some ["x/layer.tar"]⟩], [], Json.null,
          fun _ => .dir 0 [], fun _ => ""⟩ []).dstFiles = [] :=
  missing_config_aborts_early (fun s => s) (fun _ => "T") (fun _ => "M")
    ⟨false, 0, [⟨none, some ["a:1"], some ["x/layer.tar"]⟩], [], Json.null,
      fun _ => .dir 0 [], fun _ => ""⟩ []
    ⟨none, some ["a:1"], some ["x/layer.tar"]⟩ [] rfl rfl

/-- Claim C6: when the source archive is actually extracted and the
extraction subprocess exits nonzero, `_untar` only logs the failure
(`logging.fatal` does not abort), and the pipeline does not halt: the run
produces exactly the result a run with a successful extraction would,
except for the logged fatal message — in particular `_loadManifest` and
every later phase still run. -/
theorem untar_failure_does_not_halt (sha : String → String)
    (tar : List (String × String) → String) (serMan : List ManifestEntry → String)
    (env : Env) (pool0 : Pool) (hdir : env.srcDirExists = false)
    (hexit : env.untarExit ≠ 0) :
    (imageConvert sha tar serMan env pool0).untarRan = true
    ∧ (imageConvert sha tar serMan env pool0).untarFatalLogged = true
    ∧ imageConvert sha tar serMan env pool0
        = { imageConvert sha tar serMan { env with untarExit := 0 } pool0 with
            untarFatalLogged := true } := by
  have hbne : (env.untarExit != 0) = true := by
    simp only [bne_iff_ne, ne_eq]
    exact hexit
  have hu : untarStep env = (true, true) := by
    simp [untarStep, hdir, hbne]
  have hu0 : untarStep { env with untarExit := 0 } = (true, false) := by
    simp [untarStep, hdir]
  have hld : loadManifest { env with untarExit := 0 } = loadManifest env := rfl
  have hflags : (imageConvert sha tar serMan env pool0).untarRan = (untarStep env).1
      ∧ (imageConvert sha tar serMan env pool0).untarFatalLogged = (untarStep env).2 := by
    simp only [imageConvert]
    cases loadManifest env with
    | none => exact ⟨rfl, rfl⟩
    | some ld =>
        by_cases herr : (assembleLayers sha tar env.srcFile ld.configDoc pool0
            (ld.layerPaths.map (fun x => UL.mk (layerIdOf x) (env.extract x)))).err = true
        · simp [herr]
        · simp [herr]
  refine ⟨?_, ?_, ?_⟩
  · rw [hflags.1, hu]
  · rw [hflags.2, hu]
  · simp only [imageConvert, hld, hu, hu0]
    cases hl : loadManifest env with
    | none => rfl
    | some ld =>
        by_cases herr : (assembleLayers sha tar env.srcFile ld.configDoc pool0
            (ld.layerPaths.map (fun x => UL.mk (layerIdOf x) (env.extract x)))).err = true
        · simp [herr]
        · simp [herr]

/-- Witness for `untar_failure_does_not_halt`: an extraction exiting 2 on a
well-formed one-layer image; the conversion still runs to completion. -/
theorem untar_failure_does_not_halt_witness :
    (imageConvert (fun s => s) (fun _ => "T") (fun _ => "M")
        ⟨false, 2, [⟨some "cfg", some ["a:1"], some ["x/layer.tar"]⟩],
          [("a", [("1", "x")])], Json.obj [("rootfs", Json.obj [])],
          fun _ => .dir 0 [], fun _ => ""⟩ []).untarRan = true
    ∧ (imageConvert (fun s => s) (fun _ => "T") (fun _ => "M")
        ⟨false, 2, [⟨some "cfg", some ["a:1"], some ["x/layer.tar"]⟩],
          [("a", [("1", "x")])], Json.obj [("rootfs", Json.obj [])],
          fun _ => .dir 0 [], fun _ => ""⟩ []).untarFatalLogged = true
    ∧ imageConvert (fun s => s) (fun _ => "T") (fun _ => "M")
        ⟨false, 2, [⟨some "cfg", some ["a:1"], some ["x/layer.tar"]⟩],
          [("a", [("1", "x")])], Json.obj [("rootfs", Json.obj [])],
          fun _ => .dir 0 [], fun _ => ""⟩ []
      = { imageConvert (fun s => s) (fun _ => "T") (fun _ => "M")
            ⟨false, 0, [⟨some "cfg", some ["a:1"], some ["x/layer.tar"]⟩],
              [("a", [("1", "x")])], Json.obj [("rootfs", Json.obj [])],
              fun _ => .dir 0 [], fun _ => ""⟩ [] with
          untarFatalLogged := true } :=
  untar_failure_does_not_halt (fun s => s) (fun _ => "T") (fun _ => "M")
    ⟨false, 2, [⟨some "cfg", some ["a:1"], some ["x/layer.tar"]⟩],
      [("a", [("1", "x")])], Json.obj [("rootfs", Json.obj [])],
      fun _ => .dir 0 [], fun _ => ""⟩ [] rfl (by decide)

/-- The config shape `_assembleLayers` maintains: the original object with
its `rootfs` object's `diff_ids` member set to the given id list. -/
def cfgShape (kvs rkvs : List (String × Json)) (ids : List String) : Json :=
  .obj (alInsert kvs "rootfs" (.obj (alInsert rkvs "diff_ids" (.arr (ids.map Json.str)))))

/-- Reading `config['rootfs']['diff_ids']` back out of a config document. -/
def jsonDiffIds (config : Json) : Option (List Json) :=
  match config with
  | .obj kvs =>
      match alLookup kvs "rootfs" with
      | some (.obj rkvs) =>
          match alLookup rkvs "diff_ids" with
          | some (.arr xs) => some xs
          | _ => none
      | _ => none
  | _ => none

/-- The hash-tagged checksum `_assembleLayers` records for one unpacked
layer: `sha256:` plus the hash of the repacked `layer.tar`, whose content
is the archive of the single metadata document the layer was rebuilt
into. -/
def layerChecksum (sha : String → String) (tar : List (String × String) → String)
    (l : UL) : String :=
  "sha256:" ++ sha (tar [("metadata.json", jsonSer (direntJson (mirrorWalk sha l.fs)))])

theorem configInit_shape (kvs rkvs : List (String × Json))
    (hroot : alLookup kvs "rootfs" = some (.obj rkvs)) :
    configInitDiffIds (.obj kvs) = some (cfgShape kvs rkvs []) := by
  simp [configInitDiffIds, hroot, cfgShape]

theorem configAppend_shape (kvs rkvs : List (String × Json)) (ids : List String)
    (c : String) :
    configAppendDiffId (cfgShape kvs rkvs ids) c = some (cfgShape kvs rkvs (ids ++ [c])) := by
  simp [configAppendDiffId, cfgShape, alLookup_insert_self, alInsert_alInsert]

theorem jsonDiffIds_shape (kvs rkvs : List (String × Json)) (ids : List String) :
    jsonDiffIds (cfgShape kvs rkvs ids) = some (ids.map Json.str) := by
  simp [jsonDiffIds, cfgShape, alLookup_insert_self]

theorem assemble_fold (sha : String → String) (tar : List (String × String) → String)
    (srcFile : String → String) (uls : List UL) (kvs rkvs : List (String × Json))
    (pool : Pool) (df : List (String × String)) (acc : List String) :
    ∃ pool' df',
      uls.foldl (assembleStep sha tar srcFile)
          { pool := pool, config := cfgShape kvs rkvs acc, dstFiles := df,
            diffIds := acc, err := false }
        = { pool := pool',
            config := cfgShape kvs rkvs (acc ++ uls.map (layerChecksum sha tar)),
            dstFiles := df', diffIds := acc ++ uls.map (layerChecksum sha tar),
            err := false } := by
  induction uls generalizing pool df acc with
  | nil =>
      refine ⟨pool, df, ?_⟩
      simp
  | cons l rest ih =>
      have hcd : (convertDir sha l.fs "metadata.json" pool []).1
          = [("metadata.json", jsonSer (direntJson (mirrorWalk sha l.fs)))] := by
        simp [convertDir, mkdirModel, convertWalk_fst]
      have hstep : assembleStep sha tar srcFile
          { pool := pool, config := cfgShape kvs rkvs acc, dstFiles := df,
            diffIds := acc, err := false } l
          = { pool := (convertDir sha l.fs "metadata.json" pool []).2,
              config := cfgShape kvs rkvs (acc ++ [layerChecksum sha tar l]),
              dstFiles := df ++ [(l.id ++ "/layer.tar",
                  tar [("metadata.json", jsonSer (direntJson (mirrorWalk sha l.fs)))]),
                (l.id ++ "/VERSION", srcFile (l.id ++ "/VERSION")),
                (l.id ++ "/json", srcFile (l.id ++ "/json"))],
              diffIds := acc ++ [layerChecksum sha tar l], err := false } := by
        simp only [assembleStep]
        rw [if_neg (by simp)]
        rw [hcd, configAppend_shape]
        rfl
      obtain ⟨p', d', heq⟩ := ih (convertDir sha l.fs "metadata.json" pool []).2
        (df ++ [(l.id ++ "/layer.tar",
            tar [("metadata.json", jsonSer (direntJson (mirrorWalk sha l.fs)))]),
          (l.id ++ "/VERSION", srcFile (l.id ++ "/VERSION")),
          (l.id ++ "/json", srcFile (l.id ++ "/json"))])
        (acc ++ [layerChecksum sha tar l])
      refine ⟨p', d', ?_⟩
      rw [List.foldl_cons, hstep, heq]
      simp [List.append_assoc]

/-- Claim C3: for an input whose manifest record is well-formed and whose
config holds a rootfs object, the diff-id list the conversion records has
the same length as the manifest's Layers list and its i-th entry is the
`sha256:`-tagged checksum of the repacked layer produced from the i-th
manifest layer (order preserved); the same list, in the same order, is what
sits under `rootfs.diff_ids` in the output config document. -/
theorem diff_ids_match_layers (sha : String → String)
    (tar : List (String × String) → String) (serMan : List ManifestEntry → String)
    (env : Env) (pool0 : Pool) (m0 : ManifestEntry) (rest : List ManifestEntry)
    (cname : String) (rts ls : List String) (kvs rkvs : List (String × Json))
    (hm : env.manifest = m0 :: rest)
    (hcn : m0.Config = some cname)
    (hl : m0.Layers = some ls)
    (ht : m0.RepoTags = some rts)
    (hcfg : env.config = .obj kvs)
    (hroot : alLookup kvs "rootfs" = some (.obj rkvs)) :
    (imageConvert sha tar serMan env pool0).diffIds
        = ls.map (fun x => layerChecksum sha tar (UL.mk (layerIdOf x) (env.extract x)))
    ∧ (imageConvert sha tar serMan env pool0).diffIds.length = ls.length
    ∧ (∀ i : Nat, (imageConvert sha tar serMan env pool0).diffIds[i]?
        = (ls[i]?).map (fun x => layerChecksum sha tar (UL.mk (layerIdOf x) (env.extract x))))
    ∧ jsonDiffIds (imageConvert sha tar serMan env pool0).config
        = some ((imageConvert sha tar serMan env pool0).diffIds.map Json.str) := by
  have hload : loadManifest env = some ⟨m0, env.config, env.repositories, ls⟩ := by
    unfold loadManifest
    rw [hm]
    simp [hcn, hl, ht]
  have hinit : configInitDiffIds env.config = some (cfgShape kvs rkvs []) := by
    rw [hcfg]
    exact configInit_shape kvs rkvs hroot
  obtain ⟨p', d', hfold⟩ := assemble_fold sha tar env.srcFile
      (ls.map (fun x => UL.mk (layerIdOf x) (env.extract x))) kvs rkvs pool0 [] []
  have hst : assembleLayers sha tar env.srcFile env.config pool0
      (ls.map (fun x => UL.mk (layerIdOf x) (env.extract x)))
      = { pool := p',
          config := cfgShape kvs rkvs
            ((ls.map (fun x => UL.mk (layerIdOf x) (env.extract x))).map
              (layerChecksum sha tar)),
          dstFiles := d',
          diffIds := (ls.map (fun x => UL.mk (layerIdOf x) (env.extract x))).map
            (layerChecksum sha tar),
          err := false } := by
    unfold assembleLayers
    rw [hinit]
    simpa using hfold
  have hmain : (imageConvert sha tar serMan env pool0).diffIds
        = (ls.map (fun x => UL.mk (layerIdOf x) (env.extract x))).map (layerChecksum sha tar)
      ∧ (imageConvert sha tar serMan env pool0).config
        = cfgShape kvs rkvs
            ((ls.map (fun x => UL.mk (layerIdOf x) (env.extract x))).map
              (layerChecksum sha tar)) := by
    simp only [imageConvert, hload]
    rw [hst]
    simp
  obtain ⟨hids, hcfg2⟩ := hmain
  have hmaps : (ls.map (fun x => UL.mk (layerIdOf x) (env.extract x))).map
        (layerChecksum sha tar)
      = ls.map (fun x => layerChecksum sha tar (UL.mk (layerIdOf x) (env.extract x))) := by
    rw [List.map_map]
    rfl
  refine ⟨?_, ?_, ?_, ?_⟩
  · rw [hids, hmaps]
  · rw [hids, hmaps, List.length_map]
  · intro i
    rw [hids, hmaps, List.getElem?_map]
  · rw [hids, hcfg2, jsonDiffIds_shape]

/-- Witness for `diff_ids_match_layers`: a two-layer image; the recorded
diff-id list has one entry per manifest layer. -/
theorem diff_ids_match_layers_witness :
    (imageConvert (fun s => s) (fun l => String.join (l.map (fun p => p.1 ++ p.2)))
        (fun _ => "M")
        ⟨false, 0, [⟨some "cfg", some ["a:1"], some ["x/layer.tar", "y/layer.tar"]⟩],
          [], Json.obj [("rootfs", Json.obj [])],
          fun _ => .dir 16877 [("f", .file 33188 "hi")], fun _ => "V"⟩ []).diffIds.length
      = (["x/layer.tar", "y/layer.tar"] : List String).length := by
  have h := diff_ids_match_layers (fun s => s)
      (fun l => String.join (l.map (fun p => p.1 ++ p.2))) (fun _ => "M")
      ⟨false, 0, [⟨some "cfg", some ["a:1"], some ["x/layer.tar", "y/layer.tar"]⟩],
        [], Json.obj [("rootfs", Json.obj [])],
        fun _ => .dir 16877 [("f", .file 33188 "hi")], fun _ => "V"⟩ []
      ⟨some "cfg", some ["a:1"], some ["x/layer.tar", "y/layer.tar"]⟩ []
      "cfg" ["a:1"] ["x/layer.tar", "y/layer.tar"] [("rootfs", Json.obj [])] []
      rfl rfl rfl rfl rfl rfl
  exact h.2.1

/-- Claim C10: `_writeConfigs` is not atomic on error.  When the tag loop
raises (in particular when a tag names a repository or version key absent
from the index — last conjunct), the step aborts, but only after the new
content-addressed config file has been written into the destination tree
and the manifest's Config field updated; neither is rolled back, the
manifest's RepoTags list is left unreplaced, and the `repositories` and
`manifest.json` files are never written. -/
theorem writeConfigs_not_atomic (shaS : String → String)
    (serMan : List ManifestEntry → String) (config : Json)
    (m0 : ManifestEntry) (rest : List ManifestEntry) (repos : Repos)
    (tags : List String)
    (hrt : m0.RepoTags = some tags)
    (herr : (rewriteTags tags repos).err = true) :
    (writeConfigs shaS serMan config (m0 :: rest) repos).err = true
    ∧ (writeConfigs shaS serMan config (m0 :: rest) repos).dstFiles
        = [(shaS (jsonSer config) ++ ".json", jsonSer config)]
    ∧ (writeConfigs shaS serMan config (m0 :: rest) repos).manifest
        = { m0 with Config := some (shaS (jsonSer config) ++ ".json") } :: rest
    ∧ ({ m0 with Config := some (shaS (jsonSer config) ++ ".json") }
        : ManifestEntry).RepoTags = some tags
    ∧ (∀ n v ts, tags = (n ++ ":" ++ v) :: ts → ':' ∉ n.data → ':' ∉ v.data →
        lookup2 repos n v = none → (rewriteTags tags repos).err = true) := by
  refine ⟨?_, ?_, ?_, ?_, ?_⟩
  · simp [writeConfigs, hrt, herr]
  · simp [writeConfigs, hrt, herr]
  · simp [writeConfigs, hrt, herr]
  · simpa using hrt
  · intro n v ts htags h1 h2 hlk
    rw [htags]
    simp [rewriteTags, splitTag_concat n v h1 h2, hlk]

/-- Witness for `writeConfigs_not_atomic`: one tag `a:1.0` over an empty
index; the rewrite raises `KeyError`, yet the config file is written. -/
theorem writeConfigs_not_atomic_witness :
    (writeConfigs (fun _ => "h") (fun _ => "m") Json.null
        [⟨some "cfg", some ["a:1.0"], some []⟩] []).dstFiles
      = [((fun (_ : String) => "h") (jsonSer Json.null) ++ ".json", jsonSer Json.null)] := by
  have h := writeConfigs_not_atomic (fun _ => "h") (fun _ => "m") Json.null
      ⟨some "cfg", some ["a:1.0"], some []⟩ [] [] ["a:1.0"] rfl rfl
  exact h.2.1
